import Mathlib

/-!
Shallow embedding of the collaborative-canvas server core:
the room state machine of server/rooms.js (opLog, undoneStack, pushOp,
undoLast, redoLast, getState, broadcast) and the message dispatch of
server/server.js (handleMessage branches for op, stroke-part, undo, redo).
JavaScript arrays are lists; Array.push appends at the end and Array.pop
removes the end, so the stack top is the last list element. JavaScript
truthiness of the optional fields opId, ts and type is modelled explicitly:
a missing field or the empty string (resp. zero) counts as falsy.
-/

/-- A client message op payload before the server finalizes it: opId, ts and
type may be absent (or falsy), data stands for the remaining drawing fields
(points, color, width, shape geometry) which the server never inspects. -/
structure OpInput where
  opId : Option String
  ts : Option Nat
  type : Option String
  data : String
deriving DecidableEq, Repr

/-- A finalized operation as stored in the room opLog after pushOp ensured
opId, ts and type are present. -/
structure Operation where
  opId : String
  ts : Nat
  type : String
  data : String
deriving DecidableEq, Repr

/-- The field defaulting done by pushOp in rooms.js:
op.opId = op.opId || uuidv4(); op.ts = op.ts || Date.now();
if (!op.type) op.type = "stroke"; modelled with the fresh uuid value and
the current clock value passed in explicitly. -/
def finalizeOp (op : OpInput) (freshId : String) (now : Nat) : Operation :=
  { opId := match op.opId with
      | some s => if s = "" then freshId else s
      | none => freshId
    ts := match op.ts with
      | some n => if n = 0 then now else n
      | none => now
    type := match op.type with
      | some t => if t = "" then "stroke" else t
      | none => "stroke"
    data := op.data }

/-- The mutable drawing state of one room in rooms.js: the applied op log in
chronological order and the stack of undone ops. -/
structure Room where
  opLog : List Operation
  undoneStack : List Operation
deriving DecidableEq, Repr

/-- A freshly created room: createRoom starts with empty opLog and
undoneStack. -/
def roomInit : Room := { opLog := [], undoneStack := [] }

/-- pushOp from rooms.js: finalize the op, append it to opLog, and reset the
redo stack; returns the new room state and the finalized op (pushOp mutates
the payload object in place, so the caller broadcasts the finalized op). -/
def pushOp (r : Room) (op : OpInput) (freshId : String) (now : Nat) :
    Room × Operation :=
  let fin := finalizeOp op freshId now
  ({ opLog := r.opLog ++ [fin], undoneStack := [] }, fin)

/-- The payload undoLast returns for broadcast. -/
structure UndoInfo where
  targetOpId : String
  ts : Nat
deriving DecidableEq, Repr

/-- The payload redoLast returns for broadcast. -/
structure RedoInfo where
  stroke : Operation
  ts : Nat
deriving DecidableEq, Repr

/-- undoLast from rooms.js: if opLog is empty return null; otherwise pop the
last op, push it onto undoneStack, and return the broadcast payload. -/
def undoLast (r : Room) (now : Nat) : Room × Option UndoInfo :=
  match r.opLog.getLast? with
  | none => (r, none)
  | some last =>
    ({ opLog := r.opLog.dropLast, undoneStack := r.undoneStack ++ [last] },
     some { targetOpId := last.opId, ts := now })

/-- redoLast from rooms.js: if undoneStack is empty return null; otherwise pop
its top, push it back onto opLog, and return the broadcast payload. -/
def redoLast (r : Room) (now : Nat) : Room × Option RedoInfo :=
  match r.undoneStack.getLast? with
  | none => (r, none)
  | some op =>
    ({ opLog := r.opLog ++ [op], undoneStack := r.undoneStack.dropLast },
     some { stroke := op, ts := now })

/-- getState from rooms.js returns this.opLog.slice(): at the level of list
values the copy equals the log (reference sharing is modelled separately). -/
def getState (r : Room) : List Operation := r.opLog

/-- A connected ws client as server.js decorates it: public metadata plus
whether readyState equals OPEN (only open sockets receive sends). -/
structure Client where
  userId : String
  username : String
  color : String
  isOpen : Bool
deriving DecidableEq, Repr

/-- broadcast from rooms.js: iterate over the clients, skip the excluded
socket when one is given, and send only to sockets whose readyState is OPEN.
Modelled as the list of clients that receive the message, in iteration
order. -/
def broadcastRecipients (clients : List Client) (exceptWs : Option Client) :
    List Client :=
  clients.filter (fun c =>
    match exceptWs with
    | some e => if c = e then false else c.isOpen
    | none => c.isOpen)

/-- A room together with its connected clients, as handleMessage sees it. -/
structure SRoom where
  clients : List Client
  room : Room
deriving DecidableEq, Repr

/-- The outbound messages handleMessage can broadcast for the drawing
message kinds. -/
inductive OutMsg where
  | opMsg (op : Operation)
  | strokePartMsg (data : String)
  | undoMsg (info : UndoInfo)
  | opUndoWrap (targetOpId : String) (ts : Nat)
  | redoMsg (info : RedoInfo)
  | opRedoWrap (stroke : Operation) (ts : Nat)
deriving DecidableEq, Repr

/-- The op branch of handleMessage in server.js: pushOp then broadcast the
finalized op to everyone (exceptWs is null). Returns the new state and the
list of broadcasts, each paired with its recipients. -/
def handleOpMsg (s : SRoom) (pl : OpInput) (freshId : String) (now : Nat) :
    SRoom × List (OutMsg × List Client) :=
  let p := pushOp s.room pl freshId now
  ({ s with room := p.1 },
   [(OutMsg.opMsg p.2, broadcastRecipients s.clients none)])

/-- The stroke-part branch of handleMessage: applyPartialStroke is a no-op in
rooms.js, then the fragment is broadcast verbatim excluding the origin
client; nothing is persisted. -/
def handleStrokePart (s : SRoom) (origin : Client) (data : String) :
    SRoom × List (OutMsg × List Client) :=
  (s, [(OutMsg.strokePartMsg data, broadcastRecipients s.clients (some origin))])

/-- The undo branch of handleMessage: undoLast, and only if it returned a
payload broadcast both the explicit undo message and the op wrapper to
everyone; nothing is broadcast when undoLast returned null. -/
def handleUndo (s : SRoom) (now : Nat) : SRoom × List (OutMsg × List Client) :=
  let p := undoLast s.room now
  match p.2 with
  | none => ({ s with room := p.1 }, [])
  | some u =>
    ({ s with room := p.1 },
     [(OutMsg.undoMsg u, broadcastRecipients s.clients none),
      (OutMsg.opUndoWrap u.targetOpId u.ts, broadcastRecipients s.clients none)])

/-- The redo branch of handleMessage: redoLast, and only if it returned a
payload broadcast both the redo message and the op wrapper to everyone. -/
def handleRedo (s : SRoom) (now : Nat) : SRoom × List (OutMsg × List Client) :=
  let p := redoLast s.room now
  match p.2 with
  | none => ({ s with room := p.1 }, [])
  | some rd =>
    ({ s with room := p.1 },
     [(OutMsg.redoMsg rd, broadcastRecipients s.clients none),
      (OutMsg.opRedoWrap rd.stroke rd.ts, broadcastRecipients s.clients none)])

/-- One commit request: the client payload together with the fresh uuid the
server would draw and the clock value at processing time. -/
structure CommitCall where
  input : OpInput
  freshId : String
  now : Nat
deriving DecidableEq, Repr

/-- A sequence of pushOp calls applied in order to a room. -/
def commitRun (r : Room) (calls : List CommitCall) : Room :=
  calls.foldl (fun acc c => (pushOp acc c.input c.freshId c.now).1) r

/-- The id pushOp leaves on a committed op: the caller id when truthy,
otherwise the fresh uuid. -/
def assignedId (c : CommitCall) : String :=
  match c.input.opId with
  | some s => if s = "" then c.freshId else s
  | none => c.freshId

/-- The timestamp pushOp leaves on a committed op: the caller ts when truthy,
otherwise the server clock. -/
def assignedTs (c : CommitCall) : Nat :=
  match c.input.ts with
  | some n => if n = 0 then c.now else n
  | none => c.now

theorem opId_finalizeOp (c : CommitCall) :
    (finalizeOp c.input c.freshId c.now).opId = assignedId c := rfl

theorem ts_finalizeOp (c : CommitCall) :
    (finalizeOp c.input c.freshId c.now).ts = assignedTs c := rfl

theorem commitRun_opLog (r : Room) (calls : List CommitCall) :
    (commitRun r calls).opLog =
      r.opLog ++ calls.map (fun c => finalizeOp c.input c.freshId c.now) := by
  induction calls generalizing r with
  | nil => simp [commitRun]
  | cons c cs ih =>
    simp only [commitRun, List.foldl_cons, List.map_cons]
    rw [show List.foldl _ _ cs = commitRun (pushOp r c.input c.freshId c.now).1 cs from rfl]
    rw [ih]
    simp [pushOp, List.append_assoc]

theorem commitRun_undoneStack (r : Room) (calls : List CommitCall)
    (h : calls ≠ []) : (commitRun r calls).undoneStack = [] := by
  induction calls generalizing r with
  | nil => exact absurd rfl h
  | cons c cs ih =>
    cases cs with
    | nil => simp [commitRun, pushOp]
    | cons d ds =>
      have := ih (r := (pushOp r c.input c.freshId c.now).1) (by simp)
      simpa [commitRun] using this

/-! Concrete fixtures used by counterexamples and witnesses. -/

/-- A single open client, as a room with one connected member. -/
def clientA : Client :=
  { userId := "s_a", username := "alice", color := "#ff0000", isOpen := true }

/-- A second open client. -/
def clientB : Client :=
  { userId := "s_b", username := "bob", color := "#00ff00", isOpen := true }

/-- A room with two open members and empty drawing state. -/
def sroomAB : SRoom := { clients := [clientA, clientB], room := roomInit }

/-- An op payload whose kind is neither of the two recognized variants. -/
def bogusInput : OpInput :=
  { opId := some "o1", ts := some 5, type := some "bogus", data := "d" }

/-- C1: the op branch of handleMessage performs no kind validation: an op of
kind bogus is appended to the log with its kind preserved and is broadcast to
the open members, contradicting the claim that unrecognized kinds are
rejected with no append and no broadcast. -/
theorem C1_counterexample :
    ((handleOpMsg sroomAB bogusInput "f1" 7).1.room.opLog =
      [{ opId := "o1", ts := 5, type := "bogus", data := "d" }]) ∧
    ((handleOpMsg sroomAB bogusInput "f1" 7).2.map (fun d => d.2) =
      [[clientA, clientB]]) := by decide

/-- C1 (amended): commitOperation performs no validation of op.kind: every
submitted op, whatever its kind, is finalized (a falsy kind defaults to
stroke), appended to the opLog, and broadcast to all open members with no
exclusion; no InvalidOperation rejection path exists in the code. -/
theorem C1_no_validation (s : SRoom) (pl : OpInput) (freshId : String)
    (now : Nat) :
    (handleOpMsg s pl freshId now).1.room.opLog =
      s.room.opLog ++ [finalizeOp pl freshId now] ∧
    (handleOpMsg s pl freshId now).2 =
      [(OutMsg.opMsg (finalizeOp pl freshId now),
        broadcastRecipients s.clients none)] :=
  ⟨rfl, rfl⟩

/-- C3: pushOp resets undoneStack, so after an undo followed by a fresh
commit the redo stack is empty, redoLast returns nothing, and the redo branch
of handleMessage leaves the state unchanged and broadcasts nothing. -/
theorem C3_redo_invalidation (s : SRoom) (t0 now t2 : Nat) (pl : OpInput)
    (freshId : String) :
    ((handleOpMsg (handleUndo s t0).1 pl freshId now).1.room.undoneStack = []) ∧
    ((redoLast (handleOpMsg (handleUndo s t0).1 pl freshId now).1.room t2).2 =
      none) ∧
    (handleRedo (handleOpMsg (handleUndo s t0).1 pl freshId now).1 t2 =
      ((handleOpMsg (handleUndo s t0).1 pl freshId now).1, [])) :=
  ⟨rfl, rfl, rfl⟩

theorem perm_move_last {α : Type} (L S : List α) (b : α) :
    (L ++ (S ++ [b])).Perm ((L ++ [b]) ++ S) := by
  have h1 : (S ++ [b]).Perm ([b] ++ S) := List.perm_append_comm
  have h2 := h1.append_left L
  simpa [List.append_assoc] using h2

theorem undo_conservation (r : Room) (t : Nat) :
    (((undoLast r t).1.opLog ++ (undoLast r t).1.undoneStack).Perm
      (r.opLog ++ r.undoneStack)) ∧
    ((undoLast r t).1.opLog.length = r.opLog.length - 1) ∧
    ((undoLast r t).1.undoneStack.length =
      r.undoneStack.length + min 1 r.opLog.length) := by
  obtain ⟨log, stack⟩ := r
  rcases List.eq_nil_or_concat' log with hl | ⟨L, b, hl⟩ <;> subst hl
  · simp [undoLast]
  · refine ⟨?_, ?_, ?_⟩ <;>
      simp only [undoLast, List.getLast?_concat, List.dropLast_concat]
    · exact perm_move_last L stack b
    · simp
    · simp [Nat.min_def]

theorem redo_conservation (r : Room) (t : Nat) :
    (((redoLast r t).1.opLog ++ (redoLast r t).1.undoneStack).Perm
      (r.opLog ++ r.undoneStack)) ∧
    ((redoLast r t).1.undoneStack.length = r.undoneStack.length - 1) ∧
    ((redoLast r t).1.opLog.length =
      r.opLog.length + min 1 r.undoneStack.length) := by
  obtain ⟨log, stack⟩ := r
  rcases List.eq_nil_or_concat' stack with hs | ⟨S, b, hs⟩ <;> subst hs
  · simp [redoLast]
  · refine ⟨?_, ?_, ?_⟩ <;>
      simp only [redoLast, List.getLast?_concat, List.dropLast_concat]
    · exact (perm_move_last log S b).symm
    · simp
    · simp [Nat.min_def]

/-- C10: undo and redo conserve the combined content of opLog and
undoneStack: the combined multiset of operations (hence also the combined
length) is unchanged, and each successful call moves exactly one operation
between the two sequences (the min term is 1 exactly when the call
succeeds, 0 when it is a no-op on an empty source). -/
theorem C10_conservation (r : Room) (t1 t2 : Nat) :
    ((((undoLast r t1).1.opLog ++ (undoLast r t1).1.undoneStack).Perm
      (r.opLog ++ r.undoneStack)) ∧
    ((undoLast r t1).1.opLog.length = r.opLog.length - 1) ∧
    ((undoLast r t1).1.undoneStack.length =
      r.undoneStack.length + min 1 r.opLog.length)) ∧
    ((((redoLast r t2).1.opLog ++ (redoLast r t2).1.undoneStack).Perm
      (r.opLog ++ r.undoneStack)) ∧
    ((redoLast r t2).1.undoneStack.length = r.undoneStack.length - 1) ∧
    ((redoLast r t2).1.opLog.length =
      r.opLog.length + min 1 r.undoneStack.length)) :=
  ⟨undo_conservation r t1, redo_conservation r t2⟩

theorem undo_redo_log (r : Room) (h : r.opLog ≠ []) (t1 t2 : Nat) :
    (redoLast (undoLast r t1).1 t2).1.opLog = r.opLog := by
  rcases List.eq_nil_or_concat' r.opLog with hl | ⟨L, b, hl⟩
  · exact absurd hl h
  · obtain ⟨log, stack⟩ := r
    simp only at hl
    subst hl
    simp [undoLast, redoLast, List.getLast?_concat, List.dropLast_concat]

/-- C2: for any starting room state and any nonempty sequence of commits,
one undo followed by one redo restores the opLog to exactly the log as it
was after the commits, in content and order. -/
theorem C2_round_trip (r : Room) (calls : List CommitCall) (h : calls ≠ [])
    (t1 t2 : Nat) :
    (redoLast (undoLast (commitRun r calls) t1).1 t2).1.opLog =
      (commitRun r calls).opLog := by
  have hne : (commitRun r calls).opLog ≠ [] := by
    rw [commitRun_opLog]
    intro hc
    exact h (List.map_eq_nil_iff.mp (List.append_eq_nil.mp hc).2)
  exact undo_redo_log (commitRun r calls) hne t1 t2

/-- A commit call with every optional field absent. -/
def c2call : CommitCall :=
  { input := { opId := none, ts := none, type := none, data := "p" },
    freshId := "u1", now := 3 }

theorem C2_witness :
    (redoLast (undoLast (commitRun roomInit [c2call]) 4).1 5).1.opLog =
      (commitRun roomInit [c2call]).opLog :=
  C2_round_trip roomInit [c2call] (by decide) 4 5

/-- k successive undo requests applied to a room. -/
def undoIter (r : Room) (now : Nat) : Nat → Room
  | 0 => r
  | k + 1 => undoIter (undoLast r now).1 now k

theorem undoIter_length (r : Room) (now : Nat) (k : Nat) :
    (undoIter r now k).opLog.length = r.opLog.length - k := by
  induction k generalizing r with
  | zero => rfl
  | succ k ih =>
    have h1 := ih (undoLast r now).1
    have h2 := (undo_conservation r now).2.1
    simp only [undoIter]
    omega

/-- C5: undo is always safe: k undo calls shrink the opLog length to
length - k under truncated subtraction, so the length never goes below zero
and surplus calls leave the log empty; a single undo on an empty log is a
no-op returning nothing with no broadcast, and a single undo on a non-empty
log removes exactly one operation. -/
theorem C5_undo_safe (s : SRoom) (now : Nat) (k : Nat) :
    ((undoIter s.room now k).opLog.length = s.room.opLog.length - k) ∧
    (s.room.opLog = [] → handleUndo s now = (s, [])) ∧
    (s.room.opLog ≠ [] →
      (handleUndo s now).1.room.opLog.length + 1 = s.room.opLog.length ∧
      (handleUndo s now).2 ≠ []) := by
  refine ⟨undoIter_length s.room now k, ?_, ?_⟩
  · intro hempty
    simp [handleUndo, undoLast, hempty]
  · intro hne
    rcases List.eq_nil_or_concat' s.room.opLog with hl | ⟨L, b, hl⟩
    · exact absurd hl hne
    · constructor
      · have := (undo_conservation s.room now).2.1
        have hpos : 0 < s.room.opLog.length := by
          rw [hl]; simp
        simp only [handleUndo]
        rcases hu : (undoLast s.room now).2 with _ | u
        · simp [undoLast, hl] at hu
        · simp only []
          omega
      · simp only [handleUndo]
        rcases hu : (undoLast s.room now).2 with _ | u
        · simp [undoLast, hl] at hu
        · simp

/-- A room whose log already holds two committed operations. -/
def c5room : Room :=
  { opLog := [{ opId := "a", ts := 1, type := "stroke", data := "x" },
              { opId := "b", ts := 2, type := "stroke", data := "y" }],
    undoneStack := [] }

/-- The two-client server state over that room. -/
def c5s : SRoom := { clients := [clientA, clientB], room := c5room }

theorem C5_witness :
    ((undoIter c5s.room 9 5).opLog.length = c5s.room.opLog.length - 5) ∧
    (c5s.room.opLog = [] → handleUndo c5s 9 = (c5s, [])) ∧
    (c5s.room.opLog ≠ [] →
      (handleUndo c5s 9).1.room.opLog.length + 1 = c5s.room.opLog.length ∧
      (handleUndo c5s 9).2 ≠ []) :=
  C5_undo_safe c5s 9 5

theorem commitRun_opIds (calls : List CommitCall) :
    (commitRun roomInit calls).opLog.map Operation.opId =
      calls.map assignedId := by
  rw [commitRun_opLog]
  simp only [roomInit, List.nil_append, List.map_map]
  exact List.map_congr_left (fun c _ => opId_finalizeOp c)

theorem commitRun_tss (calls : List CommitCall) :
    (commitRun roomInit calls).opLog.map Operation.ts =
      calls.map assignedTs := by
  rw [commitRun_opLog]
  simp only [roomInit, List.nil_append, List.map_map]
  exact List.map_congr_left (fun c _ => ts_finalizeOp c)

/-- Two commit calls that submit the same caller-chosen opId. -/
def c4dup1 : CommitCall :=
  { input := { opId := some "x", ts := none, type := none, data := "a" },
    freshId := "f1", now := 1 }

/-- Second commit call reusing opId x. -/
def c4dup2 : CommitCall :=
  { input := { opId := some "x", ts := none, type := none, data := "b" },
    freshId := "f2", now := 2 }

/-- C4: pushOp never checks committed ids against the log, so a caller that
submits the same truthy opId twice produces a log containing that id twice:
the invariant fails for this sequence of commit calls. -/
theorem C4_counterexample :
    ¬ ((commitRun roomInit [c4dup1, c4dup2]).opLog.map Operation.opId).Nodup := by
  decide

/-- C4 (amended): the id of each committed op is the caller id when truthy
and the server fresh uuid otherwise; the code performs no duplicate check,
so the log ids are unique exactly when these assigned ids are pairwise
distinct (caller-guaranteed uniqueness plus fresh, non-colliding uuids). -/
theorem C4_unique_ids (calls : List CommitCall)
    (h : (calls.map assignedId).Nodup) :
    ((commitRun roomInit calls).opLog.map Operation.opId).Nodup := by
  rw [commitRun_opIds]
  exact h

/-- A commit call with a caller id. -/
def c4ok1 : CommitCall :=
  { input := { opId := some "a", ts := none, type := none, data := "p" },
    freshId := "f1", now := 1 }

/-- A commit call without a caller id, taking the fresh uuid. -/
def c4ok2 : CommitCall :=
  { input := { opId := none, ts := none, type := none, data := "q" },
    freshId := "f2", now := 2 }

theorem C4_witness :
    ((commitRun roomInit [c4ok1, c4ok2]).opLog.map Operation.opId).Nodup :=
  C4_unique_ids [c4ok1, c4ok2] (by decide)

/-- A commit at server clock 100 with no caller timestamp. -/
def c9a : CommitCall :=
  { input := { opId := some "a", ts := none, type := none, data := "p" },
    freshId := "f1", now := 100 }

/-- A later commit carrying caller timestamp 5, which pushOp preserves. -/
def c9b : CommitCall :=
  { input := { opId := some "b", ts := some 5, type := none, data := "q" },
    freshId := "f2", now := 200 }

/-- C9: pushOp keeps a truthy caller-supplied ts instead of assigning the
server clock, so a commit carrying an old timestamp lands after a newer one
and the per-room timestamp sequence of the log is not monotone. -/
theorem C9_counterexample :
    ((commitRun roomInit [c9a, c9b]).opLog.map Operation.ts = [100, 5]) ∧
    ¬ ((commitRun roomInit [c9a, c9b]).opLog.map Operation.ts).Sorted
        (· ≤ ·) := by
  constructor <;> decide

/-- C9 (amended): the server assigns committedAt only to ops submitted
without a truthy timestamp; when every commit in the run lacks a caller
timestamp and the server clock values are non-decreasing in processing
order, the timestamps along the log are monotone. -/
theorem C9_monotone_server_ts (calls : List CommitCall)
    (hts : ∀ c ∈ calls, c.input.ts = none ∨ c.input.ts = some 0)
    (hclock : (calls.map CommitCall.now).Sorted (· ≤ ·)) :
    ((commitRun roomInit calls).opLog.map Operation.ts).Sorted (· ≤ ·) := by
  rw [commitRun_tss]
  have heq : calls.map assignedTs = calls.map CommitCall.now := by
    refine List.map_congr_left (fun c hc => ?_)
    rcases hts c hc with h | h <;> simp [assignedTs, h]
  rw [heq]
  exact hclock

/-- A commit at clock 7 with no caller timestamp. -/
def c9ok1 : CommitCall :=
  { input := { opId := some "a", ts := none, type := none, data := "p" },
    freshId := "f1", now := 7 }

/-- A commit at clock 9 with caller timestamp 0 (falsy). -/
def c9ok2 : CommitCall :=
  { input := { opId := some "b", ts := some 0, type := none, data := "q" },
    freshId := "f2", now := 9 }

theorem C9_witness :
    ((commitRun roomInit [c9ok1, c9ok2]).opLog.map Operation.ts).Sorted
      (· ≤ ·) :=
  C9_monotone_server_ts [c9ok1, c9ok2] (by decide) (by decide)

/-- C7: the op branch of handleMessage broadcasts the finalized op with a
null exceptWs, so no member is excluded: every open member of the room
receives the op message, and in particular the authoring session itself,
being an open member, receives its own committed operation. -/
theorem C7_self_delivery (s : SRoom) (author : Client) (pl : OpInput)
    (freshId : String) (now : Nat)
    (hmem : author ∈ s.clients) (hopen : author.isOpen = true) :
    ((handleOpMsg s pl freshId now).2 =
      [(OutMsg.opMsg (finalizeOp pl freshId now),
        broadcastRecipients s.clients none)]) ∧
    author ∈ broadcastRecipients s.clients none ∧
    ∀ c ∈ s.clients, c.isOpen = true →
      c ∈ broadcastRecipients s.clients none := by
  refine ⟨rfl, ?_, ?_⟩
  · exact List.mem_filter.mpr ⟨hmem, hopen⟩
  · exact fun c hc hop => List.mem_filter.mpr ⟨hc, hop⟩

/-- The op payload used for the C7 witness. -/
def c7input : OpInput :=
  { opId := none, ts := none, type := some "stroke", data := "pts" }

theorem C7_witness :
    ((handleOpMsg sroomAB c7input "f9" 11).2 =
      [(OutMsg.opMsg (finalizeOp c7input "f9" 11),
        broadcastRecipients sroomAB.clients none)]) ∧
    clientA ∈ broadcastRecipients sroomAB.clients none ∧
    ∀ c ∈ sroomAB.clients, c.isOpen = true →
      c ∈ broadcastRecipients sroomAB.clients none :=
  C7_self_delivery sroomAB clientA c7input "f9" 11 (by decide) (by decide)

/-- C8: the stroke-part branch leaves the room state (and hence the opLog)
unchanged and broadcasts the fragment with the origin socket excluded: the
origin never receives its own fragment, while every other open member
does. -/
theorem C8_transient_exclusion (s : SRoom) (origin : Client) (data : String) :
    ((handleStrokePart s origin data).1 = s) ∧
    ((handleStrokePart s origin data).2 =
      [(OutMsg.strokePartMsg data,
        broadcastRecipients s.clients (some origin))]) ∧
    origin ∉ broadcastRecipients s.clients (some origin) ∧
    ∀ c ∈ s.clients, c ≠ origin → c.isOpen = true →
      c ∈ broadcastRecipients s.clients (some origin) := by
  refine ⟨rfl, rfl, ?_, ?_⟩
  · intro hmem
    have hcond := (List.mem_filter.mp hmem).2
    simp at hcond
  · intro c hc hne hop
    refine List.mem_filter.mpr ⟨hc, ?_⟩
    simp [hne, hop]

theorem C8_witness :
    ((handleStrokePart sroomAB clientA "frag").1 = sroomAB) ∧
    ((handleStrokePart sroomAB clientA "frag").2 =
      [(OutMsg.strokePartMsg "frag",
        broadcastRecipients sroomAB.clients (some clientA))]) ∧
    clientA ∉ broadcastRecipients sroomAB.clients (some clientA) ∧
    ∀ c ∈ sroomAB.clients, c ≠ clientA → c.isOpen = true →
      c ∈ broadcastRecipients sroomAB.clients (some clientA) :=
  C8_transient_exclusion sroomAB clientA "frag"

namespace Refs

/-!
Reference-level refinement of getState. In JavaScript this.opLog.slice()
copies the array but not the operation objects it holds; to settle whether
caller-side mutation can reach the room, operation records are placed on an
explicit heap of cells and the log stores cell references, exactly as a
JavaScript array stores object references.
-/

/-- A room whose log and redo stack hold references into the heap. -/
structure RoomRefs where
  opLog : List Nat
  undoneStack : List Nat
deriving DecidableEq, Repr

/-- getState under the reference model: slice() yields a fresh array holding
the same cell references. -/
def getState (r : RoomRefs) : List Nat := r.opLog

/-- Record returned for an out-of-range heap read. -/
def opDefault : Operation := { opId := "", ts := 0, type := "", data := "" }

/-- The operation content of a reference list as read through the heap. -/
def readLog (heap : List Operation) (refs : List Nat) : List Operation :=
  refs.map (fun i => heap.getD i opDefault)

/-- Caller-side in-place mutation of one operation record. -/
def writeCell (heap : List Operation) (i : Nat) (op : Operation) :
    List Operation :=
  heap.set i op

end Refs

/-- Heap with a single red stroke operation. -/
def c6heap : List Operation :=
  [{ opId := "o1", ts := 1, type := "stroke", data := "red" }]

/-- Room whose log references that operation. -/
def c6room : Refs.RoomRefs := { opLog := [0], undoneStack := [] }

/-- The mutated record a caller writes through the snapshot. -/
def c6mut : Operation := { opId := "o1", ts := 1, type := "stroke", data := "blue" }

/-- C6: getState copies only the array, not the operation records: a caller
that mutates the operation reached through the first element of the returned
snapshot (changing its stroke data from red to blue) changes the content of
the room opLog, contradicting the claim that no mutation on the returned
value affects the log. -/
theorem C6_counterexample :
    Refs.readLog
        (Refs.writeCell c6heap ((Refs.getState c6room).getD 0 0) c6mut)
        c6room.opLog ≠
      Refs.readLog c6heap c6room.opLog := by decide

/-- C6 (amended): the snapshot is a shallow copy: its rendered content
equals the content and order of the log at the time of the call, and
list-level changes to the copy cannot reach the room, but the operation
records are shared by reference, so overwriting a record referenced from the
snapshot changes the content of the room opLog as well. -/
theorem C6_shallow_copy (heap : List Operation) (r : Refs.RoomRefs)
    (j : Nat) (op : Operation)
    (hmem : j ∈ Refs.getState r)
    (hj : j < heap.length)
    (hne : op ≠ heap.getD j Refs.opDefault) :
    (Refs.readLog heap (Refs.getState r) = Refs.readLog heap r.opLog) ∧
    Refs.readLog (Refs.writeCell heap j op) r.opLog ≠
      Refs.readLog heap r.opLog := by
  refine ⟨rfl, ?_⟩
  intro hcontra
  obtain ⟨k, hk, hkj⟩ := List.getElem_of_mem hmem
  have hk' : k < r.opLog.length := hk
  have hkj' : r.opLog[k] = j := hkj
  have hval := congrArg (fun l => l[k]?) hcontra
  simp only [Refs.readLog, List.getElem?_map] at hval
  rw [List.getElem?_eq_getElem hk', hkj'] at hval
  simp only [Option.map_some'] at hval
  have hset : (Refs.writeCell heap j op).getD j Refs.opDefault = op := by
    have hlen : j < (heap.set j op).length := by simpa using hj
    rw [Refs.writeCell, List.getD_eq_getElem _ _ hlen]
    exact List.getElem_set_self hlen
  rw [hset] at hval
  exact hne (Option.some.inj hval)

theorem C6_witness :
    (Refs.readLog c6heap (Refs.getState c6room) =
      Refs.readLog c6heap c6room.opLog) ∧
    Refs.readLog (Refs.writeCell c6heap 0 c6mut) c6room.opLog ≠
      Refs.readLog c6heap c6room.opLog :=
  C6_shallow_copy c6heap c6room 0 c6mut (by decide) (by decide) (by decide)
